import Mathlib

set_option maxHeartbeats 1000000

/-!
Verification development for the promotional-email-generator application
(single source file `app.py`).  The non-UI core is shallowly embedded here:

* `normalize_url` (app.py lines 29-39), together with a model of CPython 3.11
  `urllib.parse.urlsplit` restricted to what `normalize_url` observes;
* the parsing-independent part of `scrape_website_text` (app.py lines 57-75):
  removal of non-content elements, content-root selection, text extraction and
  whitespace cleanup over an already-parsed element tree;
* `build_user_prompt` and `call_openai` (app.py lines 78-116), with the hosted
  completion service abstracted as an oracle function;
* the user-triggered generation flow (app.py lines 152-208) as a pure function
  of the inputs and the two external oracles (HTTP scrape, completion service).

Python strings are modelled as Lean `String` (a list of characters); machine
integers do not occur.  Python exceptions are modelled with `Except String`.
-/

namespace EmailGen

/-! ## Python character classes and string primitives -/

/-- Characters removed by Python `str.strip()` with no arguments: exactly the
characters for which `str.isspace()` holds. -/
def isPySpace (c : Char) : Bool :=
  c = ' ' || c = '\t' || c = '\n' || c = '\r' || c = '\u000B' || c = '\u000C' ||
  c = '\u001C' || c = '\u001D' || c = '\u001E' || c = '\u001F' || c = '\u0085' ||
  c = '\u00A0' || c = '\u1680' || ('\u2000' ≤ c && c ≤ '\u200A') || c = '\u2028' ||
  c = '\u2029' || c = '\u202F' || c = '\u205F' || c = '\u3000'

/-- Line boundaries recognised by Python `str.splitlines()`. -/
def isLineBreak (c : Char) : Bool :=
  c = '\n' || c = '\r' || c = '\u000B' || c = '\u000C' || c = '\u001C' ||
  c = '\u001D' || c = '\u001E' || c = '\u0085' || c = '\u2028' || c = '\u2029'

/-- Drop the longest suffix all of whose characters satisfy `p` (the right half
of Python `str.strip()`). -/
def dropTrailWhile (p : Char → Bool) : List Char → List Char
  | [] => []
  | c :: rest =>
    match dropTrailWhile p rest with
    | [] => if p c then [] else [c]
    | r => c :: r

/-- Python `str.strip()` on a character list: drop leading and trailing
whitespace characters. -/
def pyStripL (l : List Char) : List Char :=
  dropTrailWhile isPySpace (l.dropWhile isPySpace)

/-- Python `str.strip()`. -/
def pyStrip (s : String) : String := ⟨pyStripL s.data⟩

/-- Worker for Python `str.splitlines()`: `cur` is the (reversed-free) current
line being accumulated.  Every line-boundary character emits the current line;
a `"\r\n"` pair counts as a single boundary; a final unterminated line is
emitted only if non-empty. -/
def splitLinesGo (cur : List Char) : List Char → List (List Char)
  | [] => if cur = [] then [] else [cur]
  | '\r' :: '\n' :: rest => cur :: splitLinesGo [] rest
  | c :: rest =>
    if isLineBreak c then cur :: splitLinesGo [] rest
    else splitLinesGo (cur ++ [c]) rest

/-- Python `str.splitlines()` on a character list. -/
def splitLinesL (l : List Char) : List (List Char) := splitLinesGo [] l

/-- Python `"\n".join(...)` on character lists. -/
def joinLines : List (List Char) → List Char
  | [] => []
  | [l] => l
  | l :: ls => l ++ '\n' :: joinLines ls

/-- Worker for the newline collapse: `run` counts the newline characters read
since the last non-newline character; a finished run of three or more is
emitted as exactly two newlines, shorter runs are emitted as they were. -/
def collapseNLGo (run : Nat) : List Char → List Char
  | [] => if run ≥ 3 then ['\n', '\n'] else List.replicate run '\n'
  | c :: rest =>
    if c = '\n' then collapseNLGo (run + 1) rest
    else
      (if run ≥ 3 then ['\n', '\n'] else List.replicate run '\n') ++
        c :: collapseNLGo 0 rest

/-- Python `re.sub(r"\n{3,}", "\n\n", s)`: every maximal run of three or more
newline characters is replaced by exactly two; shorter runs are untouched. -/
def collapseNL (l : List Char) : List Char := collapseNLGo 0 l

/-- Decides whether a character list contains two consecutive newlines. -/
def hasNN : List Char → Bool
  | a :: b :: rest => (a == '\n' && b == '\n') || hasNN (b :: rest)
  | _ => false

/-- Decides whether a character list contains three consecutive newlines. -/
def hasNNN : List Char → Bool
  | a :: b :: c :: rest => (a == '\n' && b == '\n' && c == '\n') || hasNNN (b :: c :: rest)
  | _ => false

/-! ## Element-tree model of the parsed HTML page

BeautifulSoup with the `html.parser` builder turns the response body into a
tree of tags and navigable strings; tag names arrive lowercased.  The network
fetch (`requests.get`, `raise_for_status`, app.py lines 54-55) and the parse
itself are outside the embedding: `scrape_website_text` is modelled from the
parsed tree onward (app.py lines 57-75). -/

inductive Node where
  | text : String → Node
  | elem : String → List Node → Node

/-- A parsed document: the top-level children of the soup object. -/
abbrev Doc := List Node

/-- Tag names whose whole subtrees `scrape_website_text` decomposes
(app.py line 60). -/
def removedTags : List String :=
  ["script", "style", "noscript", "svg", "img", "video", "audio", "canvas", "iframe"]

mutual

/-- Effect of `tag.decompose()` over all tags found by
`soup(["script", "style", ...])`: an element whose name is in `removedTags`
disappears together with its entire subtree; other nodes are kept and their
children filtered recursively. -/
def pruneNode : Node → Option Node
  | .text s => some (.text s)
  | .elem tag cs =>
    if removedTags.contains tag then none else some (.elem tag (pruneList cs))

/-- Mapping of `pruneNode` over a list of siblings, dropping removed elements. -/
def pruneList : List Node → List Node
  | [] => []
  | n :: ns =>
    match pruneNode n with
    | none => pruneList ns
    | some m => m :: pruneList ns

end

mutual

/-- BeautifulSoup `find(name)` restricted to a subtree: first element with the
given tag name in document (pre-order) position, the subtree root included. -/
def findTagNode (t : String) : Node → Option Node
  | .text _ => none
  | .elem tag cs =>
    if tag = t then some (.elem tag cs) else findTagList t cs

/-- BeautifulSoup `soup.find(name)` / `soup.body`: first element with the given
tag name in document order among a list of siblings and their subtrees. -/
def findTagList (t : String) : List Node → Option Node
  | [] => none
  | n :: ns =>
    match findTagNode t n with
    | some m => some m
    | none => findTagList t ns

end

mutual

/-- The navigable strings of a subtree in document order (what
`get_text(separator="\n")` joins). -/
def stringsNode : Node → List String
  | .text s => [s]
  | .elem _ cs => stringsList cs

/-- Concatenation of `stringsNode` over a list of siblings. -/
def stringsList : List Node → List String
  | [] => []
  | n :: ns => stringsNode n ++ stringsList ns

end

/-- Content-root selection of app.py lines 64-65:
`main if main else soup.body if soup.body else soup`.  A bs4 `Tag` is always
truthy (`Tag.__bool__` returns `True`), so this is a plain presence test. -/
def content_root (cleanedSoup : List Node) : List Node :=
  match findTagList "main" cleanedSoup with
  | some m => [m]
  | none =>
    match findTagList "body" cleanedSoup with
    | some b => [b]
    | none => cleanedSoup

/-- Whitespace cleanup of app.py lines 69-75: split into lines, strip each
line, drop empty lines, rejoin with single newlines, collapse runs of three or
more newlines, and strip the result. -/
def postprocess (text : List Char) : String :=
  ⟨pyStripL (collapseNL (joinLines
    ((((splitLinesL text).map pyStripL).filter (fun l => !l.isEmpty)))))⟩

/-- Model of `scrape_website_text` (app.py lines 42-75) from the parsed
element tree onward: decompose non-content subtrees, select the content root,
extract text with `"\n"` separators, and clean up whitespace.  The HTTP fetch
and HTML parsing that produce `soup` are effectful and stay outside the
embedding. -/
def scrape_website_text (soup : Doc) : String :=
  postprocess (joinLines ((stringsList (content_root (pruneList soup))).map String.data))

/-! ## URL normalization

`normalize_url` (app.py lines 29-39) uses `re.match(r"^https?://", url,
re.IGNORECASE)` and `urllib.parse.urlparse(url).netloc`.  The `urlparse` model
below follows CPython 3.11 `urllib.parse.urlsplit` for the fields
`normalize_url` observes: removal of the WHATWG-unsafe bytes tab/CR/LF, scheme
recognition at the first colon, netloc extraction after `"//"`, and the
`ValueError("Invalid IPv6 URL")` raised on a netloc containing `[` without `]`
or vice versa.  The path/query/fragment remainder is kept unsplit in `rest`,
and the NFKC check of `_checknetloc` (which can only fire on non-ASCII
netlocs) is not modelled; neither is read by `normalize_url`.  Recent CPython
patch releases additionally validate a netloc containing both `[` and `]` as a
bracketed IPv6/IPvFuture address; that version-dependent check is not modelled
(model errors are a subset of real errors, and no statement below evaluates a
both-brackets netloc).  Case mappings are ASCII (the inputs the claims
quantify over are handled identically by CPython). -/

/-- Characters allowed in a URL scheme (CPython `scheme_chars`). -/
def isSchemeChar (c : Char) : Bool :=
  c.isAlpha || c.isDigit || c = '+' || c = '-' || c = '.'

/-- CPython `urlsplit` first deletes `"\t"`, `"\r"` and `"\n"` everywhere. -/
def removeUnsafeBytes (l : List Char) : List Char :=
  l.filter (fun c => !(c = '\t' || c = '\r' || c = '\n'))

/-- Split a character list at the first occurrence of `sep`; `none` when `sep`
does not occur. -/
def splitOnceChar (sep : Char) : List Char → Option (List Char × List Char)
  | [] => none
  | c :: rest =>
    if c = sep then some ([], rest)
    else
      match splitOnceChar sep rest with
      | none => none
      | some (a, b) => some (c :: a, b)

/-- Result of the `urlparse` model: scheme (lowercased), network location, and
the unsplit remainder of the URL. -/
structure SplitResult where
  scheme : String
  netloc : String
  rest : String
deriving DecidableEq

/-- Model of CPython 3.11 `urllib.parse.urlparse` (via `urlsplit`) for the
fields observed by `normalize_url`; errors model `ValueError`. -/
def urlparse (url : String) : Except String SplitResult :=
  let u0 := removeUnsafeBytes url.data
  let schemeSplit : List Char × List Char :=
    match splitOnceChar ':' u0 with
    | none => ([], u0)
    | some (before, after) =>
      match before with
      | [] => ([], u0)
      | c :: cs =>
        if c.isAlpha && (c :: cs).all isSchemeChar then
          ((c :: cs).map Char.toLower, after)
        else ([], u0)
  let scheme := schemeSplit.1
  let u1 := schemeSplit.2
  match u1 with
  | '/' :: '/' :: rest2 =>
    let netloc := rest2.takeWhile fun c => !(c = '/' || c = '?' || c = '#')
    let after := rest2.dropWhile fun c => !(c = '/' || c = '?' || c = '#')
    if (netloc.contains '[' != netloc.contains ']') then
      .error "Invalid IPv6 URL"
    else .ok ⟨⟨scheme⟩, ⟨netloc⟩, ⟨after⟩⟩
  | _ => .ok ⟨⟨scheme⟩, "", ⟨u1⟩⟩

/-- Model of `re.match(r"^https?://", url, re.IGNORECASE)` (app.py line 34). -/
def hasHttpScheme (s : String) : Bool :=
  ((s.data.take 7).map Char.toLower == "http://".data) ||
  ((s.data.take 8).map Char.toLower == "https://".data)

/-- App.py lines 34-35: prepend `"https://"` when the scheme pattern does not
match. -/
def withScheme (u : String) : String :=
  if hasHttpScheme u then u else ⟨"https://".data ++ u.data⟩

/-- Model of `normalize_url` (app.py lines 29-39).  A `.error` value models an
uncaught Python exception escaping the function; `.ok ""` is the explicit
invalid result. -/
def normalize_url (url : String) : Except String String :=
  if pyStrip url = "" then .ok ""
  else
    match urlparse (withScheme (pyStrip url)) with
    | .error e => .error e
    | .ok p => if p.netloc = "" then .ok "" else .ok (withScheme (pyStrip url))

/-! ## Prompt composition and completion client -/

/-- The fixed system-role instruction (app.py lines 21-26). -/
def SYSTEM_PROMPT : String :=
  "You are a Senior CRM Professional with 10+ years of experience in high-end marketing. " ++
  "You write concise, persuasive, and professional email copy. " ++
  "You never use cheesy or spammy language. " ++
  "Use the provided business details to tailor the tone."

/-- Model of `build_user_prompt` (app.py lines 78-93), character for
character. -/
def build_user_prompt (business_text promo_details : String) : String :=
  "BUSINESS DETAILS (from website and/or user):\n" ++ business_text ++ "\n\n" ++
  "PROMOTION DETAILS:\n" ++ promo_details ++ "\n\n" ++
  "TASK:\n" ++
  "Write one promotional email suitable for a small business to send to customers.\n" ++
  "Requirements:\n" ++
  "- Subject line + email body.\n" ++
  "- Clear offer and timeframe.\n" ++
  "- Professional, concise, persuasive.\n" ++
  "- No spammy words (e.g., \x27ACT NOW!!!\x27, \x27FREE MONEY\x27, \x27guaranteed\x27).\n" ++
  "- Include a clear call-to-action.\n" ++
  "- If the business type is unclear, keep it broadly applicable.\n"

/-- Python slicing `s[:n]`. -/
def pyTakeStr (n : Nat) (s : String) : String := ⟨s.data.take n⟩

/-- Size control of app.py lines 100-104 applied to the already-stripped
business text: texts longer than 7000 characters are cut to their first 7000
characters and the truncation marker is appended. -/
def truncate_business (bt : String) : String :=
  if bt.length > 7000 then pyTakeStr 7000 bt ++ "\n...(truncated)..." else bt

/-- The request `call_openai` sends to `client.responses.create`
(app.py lines 109-115): credential, model name, system-role content and
user-role content. -/
structure OpenAIRequest where
  api_key : String
  model : String
  system : String
  user : String

/-- The request assembled by `call_openai` before the service call. -/
def openai_request (api_key business_text promo_details : String) : OpenAIRequest :=
  ⟨api_key, "gpt-4o", SYSTEM_PROMPT, build_user_prompt business_text promo_details⟩

/-- App.py line 116: `(resp.output_text or "").strip()` on a successful
response (`none` models an absent/None `output_text`), errors passed
through. -/
def svcResult (r : Except String (Option String)) : Except String String :=
  match r with
  | .error e => .error e
  | .ok t => .ok (pyStrip (t.getD ""))

/-- Model of `call_openai` (app.py lines 96-116).  The hosted service is the
oracle `svc`: it receives the assembled request and yields either the
output_text of the response (possibly absent) or a raised error. -/
def call_openai (svc : OpenAIRequest → Except String (Option String))
    (api_key business_text promo_details : String) : Except String String :=
  svcResult (svc (openai_request api_key
    (truncate_business (pyStrip business_text)) (pyStrip promo_details)))

/-! ## The user-triggered generation flow (app.py lines 152-208) -/

/-- Where a single press of the generate button ends up.  Each constructor is
one of the `st.error`/`st.stop`/success exits of the flow. -/
inductive FlowResult where
  | missingApiKey
  | uncaughtError (e : String)
  | invalidUrl
  | missingPromo
  | fallbackHalt
  | openaiError (e : String)
  | emptyEmail
  | success (email : String)
deriving DecidableEq

/-- App.py lines 189-201: call the completion client, surface a raised error,
treat empty output as a distinct failure, otherwise succeed. -/
def openaiStage (svc : OpenAIRequest → Except String (Option String))
    (api_key business_text promo_details : String) : FlowResult :=
  match call_openai svc api_key business_text promo_details with
  | .error e => .openaiError e
  | .ok email => if email = "" then .emptyEmail else .success email

/-- App.py lines 180-187: the fallback gate.  With an empty (stripped) manual
description the flow stops; otherwise the stripped manual description becomes
the business text. -/
def fallbackStage (svc : OpenAIRequest → Except String (Option String))
    (api_key manual_description promo_details : String) : FlowResult :=
  if pyStrip manual_description = "" then .fallbackHalt
  else openaiStage svc api_key (pyStrip manual_description) promo_details

/-- Model of the generate-button flow (app.py lines 152-208) as a function of
the four text inputs and the two external oracles: `scrape` models
`scrape_website_text` as called on the normalized URL (network included), and
`svc` models the completion service.  An exception from `normalize_url` is not
caught anywhere in the script and crashes the action (`uncaughtError`). -/
def generate_flow (api_key website_url_raw promo_details manual_description : String)
    (scrape : String → Except String String)
    (svc : OpenAIRequest → Except String (Option String)) : FlowResult :=
  if api_key = "" then .missingApiKey
  else
    match normalize_url website_url_raw with
    | .error e => .uncaughtError e
    | .ok website_url =>
      if website_url = "" then .invalidUrl
      else if pyStrip promo_details = "" then .missingPromo
      else
        match scrape website_url with
        | .error _ => fallbackStage svc api_key manual_description promo_details
        | .ok scraped =>
          if scraped.length < 300 then
            fallbackStage svc api_key manual_description promo_details
          else openaiStage svc api_key scraped promo_details

/-! ## Fixtures used by witnesses and counterexamples -/

/-- A page whose only `<main>` element sits inside an `<iframe>` (a removed
element type), with marker text outside it. -/
def docMainInIframe : Doc :=
  [.elem "body" [.elem "iframe" [.elem "main" [.text "IN"]], .text "OUT"]]

/-- Marker page: text inside `<main>` and a sibling marker outside it. -/
def docMarkerA : Doc :=
  [.elem "body" [.elem "main" [.text "INSIDE"], .text "OUTSIDE-A"]]

/-- Same `<main>` subtree as `docMarkerA` but entirely different text outside
it. -/
def docMarkerB : Doc :=
  [.elem "nav" [.text "OUTSIDE-B"], .elem "main" [.text "INSIDE"]]

/-- Script fixture from the spec: `Hello<script>alert(1)</script>World`. -/
def docWithScript : Doc :=
  [.elem "body" [.text "Hello", .elem "script" [.text "alert(1)"], .text "World"]]

/-- Copy of `docWithScript` with the script block deleted. -/
def docWithoutScript : Doc :=
  [.elem "body" [.text "Hello", .text "World"]]

/-- A 7001-character business text, used to exercise the truncation branch. -/
def bigBusinessText : String := ⟨List.replicate 7001 'a'⟩

/-! ## Helper lemmas -/

theorem dropTrailWhile_all (p : Char → Bool) (l : List Char)
    (h : ∀ c ∈ l, p c = false) : dropTrailWhile p l = l := by
  induction l with
  | nil => rfl
  | cons c rest ih =>
    have hr := ih (fun d hd => h d (List.mem_cons_of_mem _ hd))
    have hc : p c = false := h c (List.mem_cons_self _ _)
    unfold dropTrailWhile
    rw [hr]
    cases rest with
    | nil => simp [hc]
    | cons d ds => rfl

theorem pyStripL_all (l : List Char) (h : ∀ c ∈ l, isPySpace c = false) :
    pyStripL l = l := by
  have hd : l.dropWhile isPySpace = l := by
    cases l with
    | nil => rfl
    | cons c rest =>
      exact List.dropWhile_cons_of_neg (by simp [h c (List.mem_cons_self _ _)])
  rw [pyStripL, hd, dropTrailWhile_all _ _ h]

theorem bigBusinessText_strip : pyStrip bigBusinessText = bigBusinessText := by
  show (⟨pyStripL (List.replicate 7001 'a')⟩ : String) = ⟨List.replicate 7001 'a'⟩
  rw [pyStripL_all]
  intro c hc
  rw [List.eq_of_mem_replicate hc]
  decide

theorem bigBusinessText_strip_length : (pyStrip bigBusinessText).length > 7000 := by
  rw [bigBusinessText_strip]
  show (List.replicate 7001 'a').length > 7000
  rw [List.length_replicate]
  omega

/-! ## Claims C2, C3, C4, C5, C8, C9 -/

/-- C2 (amended): for every HTML document whose tree, after removal of the
non-content element types, still contains a `<main>` element, the extracted
text is drawn only from within the first such `<main>`: two documents sharing
that (cleaned) `<main>` subtree extract identical text, whatever stands
outside it. -/
theorem scrape_main_only (d₁ d₂ : Doc) (m : Node)
    (h₁ : findTagList "main" (pruneList d₁) = some m)
    (h₂ : findTagList "main" (pruneList d₂) = some m) :
    scrape_website_text d₁ = scrape_website_text d₂ := by
  unfold scrape_website_text content_root
  rw [h₁, h₂]

theorem scrape_main_only_witness :
    findTagList "main" (pruneList docMarkerA) = some (.elem "main" [.text "INSIDE"])
    ∧ findTagList "main" (pruneList docMarkerB) = some (.elem "main" [.text "INSIDE"])
    ∧ scrape_website_text docMarkerA = scrape_website_text docMarkerB :=
  ⟨rfl, rfl, scrape_main_only docMarkerA docMarkerB (.elem "main" [.text "INSIDE"]) rfl rfl⟩

/-- C2 counterexample to the claim as stated: `docMainInIframe` contains a
`<main>` element (whose entire text is `"IN"`), yet the extracted text is the
marker `"OUT"` located outside that `<main>` — the `<main>` sat inside an
`<iframe>`, a removed element type, so the content root fell back to
`<body>`. -/
theorem scrape_main_ctrex :
    findTagList "main" docMainInIframe = some (.elem "main" [.text "IN"])
    ∧ scrape_website_text docMainInIframe = "OUT" := ⟨rfl, by decide⟩

/-- C3 (code bug): on input `"["` the code does not return a string at all:
`normalize_url` prepends `"https://"` and `urlparse("https://[")` raises
`ValueError("Invalid IPv6 URL")`, which `normalize_url` does not catch. -/
theorem normalize_url_bracket_raises :
    normalize_url "[" = .error "Invalid IPv6 URL" := rfl

/-- C4: `call_openai` composes the prompt from the whitespace-stripped inputs;
the stripped business text is truncated to exactly its first 7000 characters
plus the truncation marker when longer than 7000 characters and passed through
unchanged otherwise, while the promotion details enter the prompt whole. -/
theorem call_openai_truncation (svc : OpenAIRequest → Except String (Option String))
    (api_key business_text promo_details : String) :
    call_openai svc api_key business_text promo_details
      = svcResult (svc (openai_request api_key
          (truncate_business (pyStrip business_text)) (pyStrip promo_details)))
    ∧ ((pyStrip business_text).length > 7000 →
        truncate_business (pyStrip business_text)
          = pyTakeStr 7000 (pyStrip business_text) ++ "\n...(truncated)..."
        ∧ (pyTakeStr 7000 (pyStrip business_text)).length = 7000)
    ∧ ((pyStrip business_text).length ≤ 7000 →
        truncate_business (pyStrip business_text) = pyStrip business_text) := by
  refine ⟨rfl, fun h => ⟨?_, ?_⟩, fun h => ?_⟩
  · unfold truncate_business
    rw [if_pos h]
  · show ((pyStrip business_text).data.take 7000).length = 7000
    have h' : (pyStrip business_text).data.length > 7000 := h
    simp [List.length_take]
    omega
  · unfold truncate_business
    rw [if_neg (by omega)]

theorem call_openai_truncation_witness :
    (pyStrip bigBusinessText).length > 7000
    ∧ (truncate_business (pyStrip bigBusinessText)
        = pyTakeStr 7000 (pyStrip bigBusinessText) ++ "\n...(truncated)..."
      ∧ (pyTakeStr 7000 (pyStrip bigBusinessText)).length = 7000) :=
  ⟨bigBusinessText_strip_length,
   (call_openai_truncation (fun _ => .ok none) "key" bigBusinessText "promo").2.1
     bigBusinessText_strip_length⟩

/-- C5: removal of the non-content element types is structural — the extracted
text depends only on the tree left after every `script`/`style`/`noscript`/
`svg`/`img`/`video`/`audio`/`canvas`/`iframe` subtree (nested text included)
has been discarded, so nothing inside them can reach the output. -/
theorem scrape_removed_subtrees (d₁ d₂ : Doc) (h : pruneList d₁ = pruneList d₂) :
    scrape_website_text d₁ = scrape_website_text d₂ := by
  unfold scrape_website_text
  rw [h]

theorem scrape_removed_subtrees_witness :
    pruneList docWithScript = pruneList docWithoutScript
    ∧ scrape_website_text docWithScript = scrape_website_text docWithoutScript :=
  ⟨rfl, scrape_removed_subtrees docWithScript docWithoutScript rfl⟩

/-- C8: when the completion service call succeeds, `call_openai` returns the
output text stripped of surrounding whitespace as a normal (non-error) value,
and an absent output text yields the empty string, again as a normal value. -/
theorem call_openai_success (svc : OpenAIRequest → Except String (Option String))
    (api_key business_text promo_details : String) (t : Option String)
    (h : svc (openai_request api_key (truncate_business (pyStrip business_text))
          (pyStrip promo_details)) = .ok t) :
    call_openai svc api_key business_text promo_details = .ok (pyStrip (t.getD ""))
    ∧ (t = none → call_openai svc api_key business_text promo_details = .ok "") := by
  unfold call_openai svcResult
  rw [h]
  exact ⟨rfl, by rintro rfl; rfl⟩

theorem call_openai_success_witness :
    call_openai (fun _ => .ok none) "key" "biz" "promo" = .ok "" :=
  (call_openai_success (fun _ => .ok none) "key" "biz" "promo" none rfl).2 rfl

/-- C9: once the input gates pass, a scrape that raises or yields text shorter
than 300 characters routes the flow to the fallback stage (the stripped manual
description becomes the business text); if the stripped manual description is
empty the flow halts there, with the same outcome for every completion-service
oracle — the service is never consulted. -/
theorem generate_flow_fallback
    (api_key website_url_raw promo_details manual_description website_url : String)
    (scrape : String → Except String String)
    (svc : OpenAIRequest → Except String (Option String))
    (hkey : api_key ≠ "")
    (hnorm : normalize_url website_url_raw = .ok website_url)
    (hurl : website_url ≠ "")
    (hpromo : pyStrip promo_details ≠ "")
    (hfail : (∃ e, scrape website_url = .error e)
      ∨ ∃ t, scrape website_url = .ok t ∧ t.length < 300) :
    generate_flow api_key website_url_raw promo_details manual_description scrape svc
      = fallbackStage svc api_key manual_description promo_details
    ∧ (pyStrip manual_description = "" →
        ∀ svc2,
          generate_flow api_key website_url_raw promo_details manual_description scrape svc2
            = .fallbackHalt) := by
  have key : ∀ svc2 : OpenAIRequest → Except String (Option String),
      generate_flow api_key website_url_raw promo_details manual_description scrape svc2
        = fallbackStage svc2 api_key manual_description promo_details := by
    intro svc2
    rcases hfail with ⟨e, he⟩ | ⟨t, ht, hlen⟩
    · simp [generate_flow, hkey, hnorm, hurl, hpromo, he]
    · simp [generate_flow, hkey, hnorm, hurl, hpromo, ht, hlen]
  refine ⟨key svc, fun hm svc2 => ?_⟩
  rw [key svc2]
  unfold fallbackStage
  rw [if_pos hm]

theorem dropTrailWhile_append (p : Char → Bool) (pre rest : List Char)
    (h : ∀ c ∈ pre, p c = false) :
    dropTrailWhile p (pre ++ rest) = pre ++ dropTrailWhile p rest := by
  induction pre with
  | nil => simp
  | cons c cs ih =>
    have ih' := ih (fun d hd => h d (List.mem_cons_of_mem _ hd))
    show dropTrailWhile p (c :: (cs ++ rest)) = c :: (cs ++ dropTrailWhile p rest)
    conv_lhs => rw [dropTrailWhile]
    rw [ih']
    cases hcs : cs ++ dropTrailWhile p rest with
    | nil =>
      obtain ⟨hcs1, hcs2⟩ := List.append_eq_nil.mp hcs
      simp [h c (List.mem_cons_self _ _), hcs1, hcs2]
    | cons d ds => rfl

theorem pyStripL_schemed (pre t : List Char) (hpre : pre ≠ [])
    (hs : ∀ c ∈ pre, isPySpace c = false) :
    pyStripL (pre ++ t) = pre ++ dropTrailWhile isPySpace t := by
  unfold pyStripL
  have hd : (pre ++ t).dropWhile isPySpace = pre ++ t := by
    cases pre with
    | nil => exact absurd rfl hpre
    | cons c cs =>
      rw [List.cons_append,
        List.dropWhile_cons_of_neg (by simp [hs c (List.mem_cons_self _ _)])]
  rw [hd, dropTrailWhile_append _ _ _ hs]

theorem hasHttpScheme_of_http (t : List Char) :
    hasHttpScheme ⟨"http://".data ++ t⟩ = true := by
  have h1 : ((("http://".data ++ t).take 7).map Char.toLower == "http://".data) = true := by
    rw [show (7 : Nat) = ("http://".data).length from rfl, List.take_left]
    decide
  unfold hasHttpScheme
  rw [h1, Bool.true_or]

theorem hasHttpScheme_of_https (t : List Char) :
    hasHttpScheme ⟨"https://".data ++ t⟩ = true := by
  have h2 : ((("https://".data ++ t).take 8).map Char.toLower == "https://".data) = true := by
    rw [show (8 : Nat) = ("https://".data).length from rfl, List.take_left]
    decide
  unfold hasHttpScheme
  rw [h2, Bool.or_true]

theorem hasHttpScheme_withScheme (u : String) : hasHttpScheme (withScheme u) = true := by
  unfold withScheme
  by_cases h : hasHttpScheme u = true
  · rw [if_pos h]
    exact h
  · rw [if_neg h]
    exact hasHttpScheme_of_https u.data

/-- C1 (amended): whenever `normalize_url` returns normally, a non-empty
result begins with `http://` or `https://` up to ASCII letter case (the scheme
test is case-insensitive, witness `hasHttpScheme`) and parses to a URL with a
non-empty host; any other normal return is the empty string. -/
theorem normalize_url_result (s r : String) (h : normalize_url s = .ok r) :
    r = "" ∨ (hasHttpScheme r = true ∧ ∃ p, urlparse r = .ok p ∧ p.netloc ≠ "") := by
  unfold normalize_url at h
  by_cases h0 : pyStrip s = ""
  · rw [if_pos h0] at h
    exact .inl (Except.ok.inj h).symm
  · rw [if_neg h0] at h
    cases hq : urlparse (withScheme (pyStrip s)) with
    | error e => rw [hq] at h; simp at h
    | ok p =>
      simp only [hq] at h
      by_cases hn : p.netloc = ""
      · rw [if_pos hn] at h
        exact .inl (Except.ok.inj h).symm
      · rw [if_neg hn] at h
        have hr : r = withScheme (pyStrip s) := (Except.ok.inj h).symm
        subst hr
        exact .inr ⟨hasHttpScheme_withScheme _, p, hq, hn⟩

theorem normalize_url_result_witness :
    "https://example.com" = ""
    ∨ (hasHttpScheme "https://example.com" = true
       ∧ ∃ p, urlparse "https://example.com" = .ok p ∧ p.netloc ≠ "") :=
  normalize_url_result "example.com" "https://example.com" rfl

/-- C1 counterexample to the claim as stated: `normalize_url` passes
`"HTTP://example.com"` through unchanged (the scheme check is
case-insensitive), so the non-empty result starts with neither the literal
`http://` nor the literal `https://`. -/
theorem normalize_url_case_ctrex :
    normalize_url "HTTP://example.com" = .ok "HTTP://example.com"
    ∧ ¬("http://".data <+: "HTTP://example.com".data
        ∨ "https://".data <+: "HTTP://example.com".data) :=
  ⟨rfl, by decide⟩

/-- C7 (amended): a raw URL that already begins with `http://` or `https://`
is returned in whitespace-trimmed form — hence unchanged when it carries no
surrounding whitespace — when the trimmed string parses with a non-empty host,
and yields the invalid empty result when it parses with an empty host. -/
theorem normalize_url_schemed (s : String)
    (hp : "http://".data <+: s.data ∨ "https://".data <+: s.data)
    (p : SplitResult) (hq : urlparse (pyStrip s) = .ok p) :
    (p.netloc ≠ "" → normalize_url s = .ok (pyStrip s))
    ∧ (p.netloc = "" → normalize_url s = .ok "") := by
  have hmatch : hasHttpScheme (pyStrip s) = true ∧ pyStrip s ≠ "" := by
    rcases hp with ⟨t, ht⟩ | ⟨t, ht⟩
    · have hst : pyStripL s.data = "http://".data ++ dropTrailWhile isPySpace t := by
        rw [← ht]
        exact pyStripL_schemed _ _ (by decide) (by decide)
      constructor
      · show hasHttpScheme ⟨pyStripL s.data⟩ = true
        rw [hst]
        exact hasHttpScheme_of_http _
      · show (⟨pyStripL s.data⟩ : String) ≠ ""
        have hne : pyStripL s.data ≠ [] := by
          rw [hst]
          simp
        intro hbad
        exact hne (congrArg String.data hbad)
    · have hst : pyStripL s.data = "https://".data ++ dropTrailWhile isPySpace t := by
        rw [← ht]
        exact pyStripL_schemed _ _ (by decide) (by decide)
      constructor
      · show hasHttpScheme ⟨pyStripL s.data⟩ = true
        rw [hst]
        exact hasHttpScheme_of_https _
      · show (⟨pyStripL s.data⟩ : String) ≠ ""
        have hne : pyStripL s.data ≠ [] := by
          rw [hst]
          simp
        intro hbad
        exact hne (congrArg String.data hbad)
  obtain ⟨hm, hne⟩ := hmatch
  have hws : withScheme (pyStrip s) = pyStrip s := by
    unfold withScheme
    rw [if_pos hm]
  constructor
  · intro hn
    simp only [normalize_url, if_neg hne, hws, hq]
    rw [if_neg hn]
  · intro hn
    simp only [normalize_url, if_neg hne, hws, hq]
    rw [if_pos hn]

theorem normalize_url_schemed_witness :
    normalize_url "http://example.com" = .ok (pyStrip "http://example.com") :=
  (normalize_url_schemed "http://example.com" (.inl (by decide))
      ⟨"http", "example.com", ""⟩ rfl).1 (by decide)

/-- C7 counterexample to the claim as stated: `"http://example.com "` begins
with `http://` and has a valid host, but `normalize_url` returns its trimmed
form, not the string unchanged. -/
theorem normalize_url_trailing_space_ctrex :
    normalize_url "http://example.com " = .ok "http://example.com"
    ∧ "http://".data <+: "http://example.com ".data
    ∧ "http://example.com" ≠ "http://example.com " :=
  ⟨rfl, by decide, by decide⟩

theorem generate_flow_fallback_witness :
    generate_flow "key" "example.com" "promo" "" (fun _ => .error "connection refused")
        (fun _ => .ok (some "EMAIL")) = .fallbackHalt :=
  (generate_flow_fallback "key" "example.com" "promo" "" "https://example.com"
      (fun _ => .error "connection refused") (fun _ => .ok (some "EMAIL"))
      (by decide) rfl (by decide) (by decide)
      (.inl ⟨"connection refused", rfl⟩)).2 rfl _

/-! ## Newline and whitespace invariants of the extraction output (C6, C10) -/

theorem hasNN_cons2 (a b : Char) (l : List Char) :
    hasNN (a :: b :: l) = ((a == '\n' && b == '\n') || hasNN (b :: l)) := rfl

theorem hasNN_tail {a : Char} {l : List Char} (h : hasNN (a :: l) = false) :
    hasNN l = false := by
  cases l with
  | nil => rfl
  | cons b r =>
    rw [hasNN_cons2] at h
    exact (Bool.or_eq_false_iff.mp h).2

theorem hasNN_of_not_mem {l : List Char} (h : '\n' ∉ l) : hasNN l = false := by
  induction l with
  | nil => rfl
  | cons a t ih =>
    cases t with
    | nil => rfl
    | cons b r =>
      have ha : (a == '\n') = false :=
        beq_eq_false_iff_ne.mpr (fun hh => h (hh ▸ List.mem_cons_self _ _))
      have ht : hasNN (b :: r) = false := ih (fun hm => h (List.mem_cons_of_mem _ hm))
      rw [hasNN_cons2, ha, ht]
      rfl

theorem hasNN_append {l r : List Char} (hl : '\n' ∉ l) (hr : hasNN r = false) :
    hasNN (l ++ r) = false := by
  induction l with
  | nil => simpa
  | cons c cs ih =>
    have hc : (c == '\n') = false :=
      beq_eq_false_iff_ne.mpr (fun hh => hl (hh ▸ List.mem_cons_self _ _))
    have ih' : hasNN (cs ++ r) = false := ih (fun hm => hl (List.mem_cons_of_mem _ hm))
    rw [List.cons_append]
    cases hcr : cs ++ r with
    | nil => rfl
    | cons d ds =>
      rw [hcr] at ih'
      rw [hasNN_cons2, hc, ih']
      rfl

theorem hasNN_append_left (q t : List Char) :
    hasNN (q ++ t) = false → hasNN q = false := by
  induction q with
  | nil => intro _; rfl
  | cons a qs ih =>
    cases qs with
    | nil => intro _; rfl
    | cons b qs' =>
      intro h
      rw [List.cons_append, List.cons_append, hasNN_cons2] at h
      obtain ⟨h1, h2⟩ := Bool.or_eq_false_iff.mp h
      rw [← List.cons_append] at h2
      rw [hasNN_cons2, h1, ih h2]
      rfl

theorem hasNN_append_right (q t : List Char) :
    hasNN (q ++ t) = false → hasNN t = false := by
  induction q with
  | nil => intro h; simpa using h
  | cons a qs ih =>
    intro h
    rw [List.cons_append] at h
    exact ih (hasNN_tail h)

theorem hasNN_of_pre {q l : List Char} (hp : q <+: l) (h : hasNN l = false) :
    hasNN q = false := by
  obtain ⟨t, rfl⟩ := hp
  exact hasNN_append_left _ _ h

theorem joinLines_single (l : List Char) : joinLines [l] = l := rfl

theorem joinLines_cons2 (l l' : List Char) (ls : List (List Char)) :
    joinLines (l :: l' :: ls) = l ++ '\n' :: joinLines (l' :: ls) := rfl

theorem joinLines_head {l : List Char} {ls : List (List Char)} (h : l ≠ []) :
    (joinLines (l :: ls)).head? = l.head? := by
  cases ls with
  | nil => rw [joinLines_single]
  | cons l' ls' =>
    rw [joinLines_cons2]
    cases l with
    | nil => exact absurd rfl h
    | cons a t => rfl

theorem hasNN_joinLines (ls : List (List Char))
    (h : ∀ l ∈ ls, l ≠ [] ∧ '\n' ∉ l) : hasNN (joinLines ls) = false := by
  induction ls with
  | nil => rfl
  | cons l ls ih =>
    cases ls with
    | nil =>
      rw [joinLines_single]
      exact hasNN_of_not_mem (h l (List.mem_cons_self _ _)).2
    | cons l' ls' =>
      rw [joinLines_cons2]
      have hmem : l' ∈ l :: l' :: ls' := List.mem_cons_of_mem _ (List.mem_cons_self _ _)
      have hJ : hasNN (joinLines (l' :: ls')) = false :=
        ih (fun x hx => h x (List.mem_cons_of_mem _ hx))
      have hl' : l' ≠ [] := (h l' hmem).1
      have hl'nn : '\n' ∉ l' := (h l' hmem).2
      apply hasNN_append (h l (List.mem_cons_self _ _)).2
      cases hJJ : joinLines (l' :: ls') with
      | nil => rfl
      | cons j J' =>
        have hhead : (joinLines (l' :: ls')).head? = l'.head? := joinLines_head hl'
        rw [hJJ] at hhead hJ
        have hj : (j == '\n') = false := by
          cases l' with
          | nil => exact absurd rfl hl'
          | cons a t =>
            have hja : j = a := by simpa using hhead
            apply beq_eq_false_iff_ne.mpr
            rw [hja]
            intro haa
            exact hl'nn (haa ▸ List.mem_cons_self _ _)
        rw [hasNN_cons2, hj, hJ]
        rfl

theorem collapseNLGo_cons (run : Nat) (c : Char) (rest : List Char) :
    collapseNLGo run (c :: rest) = if c = '\n' then collapseNLGo (run + 1) rest
      else (if run ≥ 3 then ['\n', '\n'] else List.replicate run '\n') ++
        c :: collapseNLGo 0 rest := rfl

theorem collapseNL_eq_self {l : List Char} (h : hasNN l = false) :
    collapseNL l = l := by
  suffices H : ∀ m : List Char, hasNN m = false →
      collapseNLGo 0 m = m ∧ (m.head? ≠ some '\n' → collapseNLGo 1 m = '\n' :: m) from
    (H l h).1
  intro m
  induction m with
  | nil => exact fun _ => ⟨rfl, fun _ => rfl⟩
  | cons c rest ih =>
    intro h
    have hrest : hasNN rest = false := hasNN_tail h
    obtain ⟨ih0, ih1⟩ := ih hrest
    by_cases hc : c = '\n'
    · subst hc
      have hhead : rest.head? ≠ some '\n' := by
        cases rest with
        | nil => simp
        | cons d ds =>
          rw [hasNN_cons2] at h
          have h1 := (Bool.or_eq_false_iff.mp h).1
          have hd : (d == '\n') = false := by
            cases hdd : d == '\n' with
            | false => rfl
            | true => rw [hdd] at h1; simp at h1
          have hdne : d ≠ '\n' := beq_eq_false_iff_ne.mp hd
          simp [hdne]
      refine ⟨?_, fun hne => absurd rfl hne⟩
      show collapseNLGo 0 ('\n' :: rest) = '\n' :: rest
      rw [collapseNLGo_cons, if_pos rfl]
      exact ih1 hhead
    · refine ⟨?_, fun _ => ?_⟩
      · show collapseNLGo 0 (c :: rest) = c :: rest
        rw [collapseNLGo_cons, if_neg hc, ih0]
        rfl
      · show collapseNLGo 1 (c :: rest) = '\n' :: c :: rest
        rw [collapseNLGo_cons, if_neg hc, ih0]
        rfl

theorem hasNNN_of_hasNN {l : List Char} (h : hasNN l = false) : hasNNN l = false := by
  induction l with
  | nil => rfl
  | cons a t ih =>
    cases t with
    | nil => rfl
    | cons b r =>
      cases r with
      | nil => rfl
      | cons c rs =>
        rw [hasNN_cons2] at h
        obtain ⟨hab, ht⟩ := Bool.or_eq_false_iff.mp h
        have ihr : hasNNN (b :: c :: rs) = false := ih ht
        have habc : (a == '\n' && b == '\n' && c == '\n') = false := by
          cases haa : (a == '\n') <;> cases hbb : (b == '\n') <;>
            cases hcc : (c == '\n') <;> simp_all
        rw [show hasNNN (a :: b :: c :: rs)
            = ((a == '\n' && b == '\n' && c == '\n') || hasNNN (b :: c :: rs)) from rfl,
          habc, ihr]
        rfl

theorem dropTrailWhile_cons (p : Char → Bool) (c : Char) (rest : List Char) :
    dropTrailWhile p (c :: rest)
      = match dropTrailWhile p rest with
        | [] => if p c then [] else [c]
        | r => c :: r := rfl

theorem dropTrailWhile_pre (p : Char → Bool) (l : List Char) :
    dropTrailWhile p l <+: l := by
  induction l with
  | nil => exact List.nil_prefix
  | cons c rest ih =>
    rw [dropTrailWhile_cons]
    cases hr : dropTrailWhile p rest with
    | nil =>
      show (if p c then ([] : List Char) else [c]) <+: c :: rest
      by_cases hp : p c = true
      · rw [if_pos hp]
        exact List.nil_prefix
      · rw [if_neg hp]
        exact List.cons_prefix_cons.mpr ⟨rfl, List.nil_prefix⟩
    | cons d ds =>
      show c :: d :: ds <+: c :: rest
      rw [hr] at ih
      exact List.cons_prefix_cons.mpr ⟨rfl, ih⟩

theorem hasNN_pyStripL (l : List Char) (h : hasNN l = false) :
    hasNN (pyStripL l) = false := by
  have h1 : hasNN (l.dropWhile isPySpace) = false := by
    obtain ⟨t, ht⟩ := List.dropWhile_suffix (l := l) isPySpace
    rw [← ht] at h
    exact hasNN_append_right _ _ h
  exact hasNN_of_pre (dropTrailWhile_pre _ _) h1

theorem dropWhile_head_not (p : Char → Bool) (l : List Char) (c : Char) (t : List Char)
    (h : l.dropWhile p = c :: t) : p c = false := by
  have hh := List.head?_dropWhile_not p l
  rw [h] at hh
  exact hh

theorem dropTrailWhile_idem (p : Char → Bool) (l : List Char) :
    dropTrailWhile p (dropTrailWhile p l) = dropTrailWhile p l := by
  induction l with
  | nil => rfl
  | cons c rest ih =>
    rw [dropTrailWhile_cons]
    cases hr : dropTrailWhile p rest with
    | nil =>
      show dropTrailWhile p (if p c then [] else [c]) = (if p c then [] else [c])
      by_cases hp : p c = true
      · rw [if_pos hp]
        rfl
      · rw [if_neg hp]
        show dropTrailWhile p [c] = [c]
        rw [dropTrailWhile_cons]
        show (if p c then ([] : List Char) else [c]) = [c]
        rw [if_neg hp]
    | cons d ds =>
      show dropTrailWhile p (c :: d :: ds) = c :: d :: ds
      rw [hr] at ih
      rw [dropTrailWhile_cons, ih]

theorem pyStripL_idem (l : List Char) : pyStripL (pyStripL l) = pyStripL l := by
  have hdw : (pyStripL l).dropWhile isPySpace = pyStripL l := by
    cases hy : pyStripL l with
    | nil => rfl
    | cons c t =>
      have hpre : pyStripL l <+: l.dropWhile isPySpace := dropTrailWhile_pre _ _
      rw [hy] at hpre
      obtain ⟨t2, ht2⟩ := hpre
      have hc : isPySpace c = false := by
        apply dropWhile_head_not isPySpace l c (t ++ t2)
        rw [← ht2]
        rfl
      exact List.dropWhile_cons_of_neg (by simp [hc])
  show dropTrailWhile isPySpace ((pyStripL l).dropWhile isPySpace) = pyStripL l
  rw [hdw]
  exact dropTrailWhile_idem _ _

theorem splitLinesGo_no_break : ∀ cur cs : List Char,
    (∀ c ∈ cur, isLineBreak c = false) →
    ∀ l ∈ splitLinesGo cur cs, ∀ c ∈ l, isLineBreak c = false := by
  intro cur cs
  induction cur, cs using splitLinesGo.induct with
  | case1 =>
    intro _ l hl
    rw [splitLinesGo.eq_1] at hl
    simp at hl
  | case2 cur hne =>
    intro hcur l hl
    rw [splitLinesGo.eq_1, if_neg hne] at hl
    simp at hl
    subst hl
    exact hcur
  | case3 cur rest ih =>
    intro hcur l hl
    rw [splitLinesGo.eq_2] at hl
    rcases List.mem_cons.mp hl with rfl | hmem
    · exact hcur
    · exact ih (fun c hc => absurd hc (List.not_mem_nil c)) l hmem
  | case4 cur c rest hpat hbrk ih =>
    intro hcur l hl
    rw [splitLinesGo.eq_3 _ _ _ hpat, if_pos hbrk] at hl
    rcases List.mem_cons.mp hl with rfl | hmem
    · exact hcur
    · exact ih (fun c hc => absurd hc (List.not_mem_nil c)) l hmem
  | case5 cur c rest hpat hbrk ih =>
    intro hcur l hl
    rw [splitLinesGo.eq_3 _ _ _ hpat, if_neg hbrk] at hl
    have hbrk' : isLineBreak c = false := by
      cases hcc : isLineBreak c with
      | false => rfl
      | true => exact absurd hcc hbrk
    apply ih ?_ l hl
    intro d hd
    rcases List.mem_append.mp hd with h1 | h2
    · exact hcur d h1
    · rw [List.mem_singleton] at h2
      subst h2
      exact hbrk'

theorem splitLinesL_no_break (t : List Char) : ∀ l ∈ splitLinesL t, '\n' ∉ l := by
  intro l hl hmem
  have hfalse := splitLinesGo_no_break [] t
    (fun c hc => absurd hc (List.not_mem_nil c)) l hl '\n' hmem
  exact absurd hfalse (by decide)

theorem mem_pyStripL {c : Char} {l : List Char} (h : c ∈ pyStripL l) : c ∈ l := by
  have h1 : c ∈ l.dropWhile isPySpace := (dropTrailWhile_pre _ _).subset h
  exact (List.dropWhile_suffix _).sublist.subset h1

theorem postprocess_kept (t : List Char) :
    ∀ l ∈ ((splitLinesL t).map pyStripL).filter (fun l => !l.isEmpty),
      l ≠ [] ∧ '\n' ∉ l := by
  intro l hl
  rw [List.mem_filter] at hl
  obtain ⟨hmem, hne⟩ := hl
  rw [List.mem_map] at hmem
  obtain ⟨l0, hl0, rfl⟩ := hmem
  refine ⟨?_, ?_⟩
  · intro hbad
    rw [hbad] at hne
    simp at hne
  · intro hmem'
    exact splitLinesL_no_break t l0 hl0 (mem_pyStripL hmem')

theorem postprocess_noNN (t : List Char) : hasNN (postprocess t).data = false := by
  have hjoin : hasNN (joinLines
      (((splitLinesL t).map pyStripL).filter (fun l => !l.isEmpty))) = false :=
    hasNN_joinLines _ (postprocess_kept t)
  show hasNN (pyStripL (collapseNL (joinLines
    (((splitLinesL t).map pyStripL).filter (fun l => !l.isEmpty))))) = false
  rw [collapseNL_eq_self hjoin]
  exact hasNN_pyStripL _ hjoin

theorem postprocess_strip (t : List Char) : pyStrip (postprocess t) = postprocess t := by
  show (⟨pyStripL (pyStripL (collapseNL (joinLines
    (((splitLinesL t).map pyStripL).filter (fun l => !l.isEmpty)))))⟩ : String)
    = ⟨pyStripL (collapseNL (joinLines
    (((splitLinesL t).map pyStripL).filter (fun l => !l.isEmpty))))⟩
  rw [pyStripL_idem]

/-- C6: for every parsed page, the extraction output never contains three or
more consecutive newline characters. -/
theorem scrape_no_triple_newline (soup : Doc) :
    hasNNN (scrape_website_text soup).data = false :=
  hasNNN_of_hasNN (postprocess_noNN _)

/-- C10: for every parsed page, the extraction output contains no two
consecutive newline characters at all — every empty line was discarded before
the lines were rejoined, which also makes the 3-plus-newline collapse vacuous —
and carries no leading or trailing whitespace (stripping it again changes
nothing). -/
theorem scrape_no_blank_lines (soup : Doc) :
    hasNN (scrape_website_text soup).data = false
    ∧ pyStrip (scrape_website_text soup) = scrape_website_text soup :=
  ⟨postprocess_noNN _, postprocess_strip _⟩

end EmailGen
